import Mathlib

/-!
Shallow embedding of the registry synchronization and patch-decision engine
(package `registry`, `registry.go`, and the orchestration in `Program`).

Go strings are modelled as `List Char`; Go machine errors are an abstract
`GoError`.  Network-facing collaborators (repository construction, the Docker
credential store, content fetches, the scanner, the patcher) are modelled as
oracle parameters: a theorem quantifying over all oracles covers every
behaviour of the external system.
-/

/-- Go strings, modelled as lists of characters. -/
abbrev GoStr := List Char

/-- An abstract Go `error` value. -/
structure GoError where
  msg : GoStr
deriving DecidableEq

/-- Models `strings.Join([]string{a, b}, "/")` as used throughout the source. -/
def joinSlash (a b : GoStr) : GoStr := a ++ '/' :: b

/-- Helper for substring search: does `s` start with `pat`? -/
def startsWithStr : GoStr → GoStr → Bool
  | _, [] => true
  | [], _ :: _ => false
  | a :: s, b :: t => a = b && startsWithStr s t

/-- Models Go `strings.Contains(s, pat)`: `pat` occurs as a contiguous
substring of `s`. -/
def goContains : GoStr → GoStr → Bool
  | [], pat => startsWithStr [] pat
  | s@(_ :: tl), pat => startsWithStr s pat || goContains tl pat

/-- Models `strings.ReplaceAll(s, "/", "-")`: with a one-character pattern this
is exactly a character-wise replacement. -/
def sanitize (s : GoStr) : GoStr := s.map (fun c => if c = '/' then '-' else c)

/-- Models `filepath.Join(dir, file)` for an already-clean `dir` (Go's `Join`
additionally runs `Clean`, which is the identity on clean inputs). -/
def goJoin (dir file : GoStr) : GoStr := dir ++ '/' :: file

/-- The `Registry` struct of `registry.go`. -/
structure Registry where
  Name : GoStr
  URL : GoStr
  Insecure : Bool
  PlainHTTP : Bool
deriving DecidableEq

/-- A content descriptor; only the digest is relevant to the claims
(media type and size are carried by the digest model unchanged). -/
structure Descriptor where
  digest : GoStr
deriving DecidableEq

/-! ## The existence probe `Exist` and the batch probe `Exists` -/

/-- Oracles for the network-facing steps of `Exist`:
`newRepo` models `remote.NewRepository` (pure reference validation),
`newStore` models `credentials.NewStoreFromDocker`, and `fetch` models
`oras.Fetch` on the configured repository (reference, tag, plainHTTP flag). -/
structure ExistOracles where
  newRepo : GoStr → Except GoError Unit
  newStore : Except GoError Unit
  fetch : GoStr → GoStr → Bool → Except GoError Descriptor

/-- The free function `Exist(ctx, reference, tag, plainHTTP)` of `registry.go`:
validate the reference, build the credential store, attach the client, then
attempt `oras.Fetch`; returns `(err == nil, err)`. -/
def ExistFn (o : ExistOracles) (reference tag : GoStr) (plainHTTP : Bool) :
    Bool × Option GoError :=
  match o.newRepo reference with
  | .error e => (false, some e)
  | .ok _ =>
    match o.newStore with
    | .error e => (false, some e)
    | .ok _ =>
      match o.fetch reference tag plainHTTP with
      | .error e => (false, some e)
      | .ok _ => (true, none)

/-- The method `Registry.Exist`: delegates to `Exist` on
`strings.Join([]string{r.URL, name}, "/")` with the registry's flag. -/
def RegistryExistFn (o : ExistOracles) (r : Registry) (name tag : GoStr) :
    Bool × Option GoError :=
  ExistFn o (joinSlash r.URL name) tag r.PlainHTTP

/-- The coalescing closure inside `Exists`: an error folds to `false`,
otherwise the probed boolean is kept. -/
def coalesce : Bool × Option GoError → Bool
  | (_, some _) => false
  | (b, none) => b

/-- Observational model of a Go `map[string]bool`: insert-or-overwrite.
Only lookup, key set and size are observable, and this model agrees with the
Go map on all three. -/
def mapInsert (m : List (GoStr × Bool)) (k : GoStr) (v : Bool) :
    List (GoStr × Bool) :=
  (k, v) :: m.filter (fun p => !(decide (p.1 = k)))

/-- Lookup in the map model. -/
def mapLookup : List (GoStr × Bool) → GoStr → Option Bool
  | [], _ => none
  | (k, v) :: tl, u => if u = k then some v else mapLookup tl u

/-- The free function `Exists(ctx, ref, tag, registries)` of `registry.go`:
probe each registry via `Registry.Exist`, coalesce errors to `false`, and
store the result under the registry's `URL` key. -/
def ExistsFn (o : ExistOracles) (ref tag : GoStr) (rs : List Registry) :
    List (GoStr × Bool) :=
  rs.foldl (fun m r => mapInsert m r.URL (coalesce (RegistryExistFn o r ref tag))) []

/-! ## `Registry.Push` and `Registry.Fetch` -/

/-- A platform constraint string (architecture/OS/variant), kept abstract. -/
abbrev Platform := GoStr

/-- A repository handle as configured by the source: the reference it was
created from and the `PlainHTTP` flag assigned to it. -/
structure RepoCfg where
  ref : GoStr
  plainHTTP : Bool
deriving DecidableEq

/-- Registry world state: which descriptor (if any) is tagged at each
(repository reference, tag) pair.  Modelled from the spec: the registry
protocol of a content-addressable store (resolve by tag returns the tagged
descriptor; copy transfers it). -/
def World : Type := GoStr → GoStr → Option Descriptor

/-- Tag a descriptor in the world at (reference, tag). -/
def worldSet (w : World) (ref tag : GoStr) (d : Descriptor) : World :=
  fun ref1 tag1 => if ref1 = ref ∧ tag1 = tag then some d else w ref1 tag1

/-- Oracles for the fallible non-copy steps of `Push`/`Fetch`:
`newRepo` models `remote.NewRepository`, `newStore` models
`credentials.NewStoreFromDocker`, `parsePlatform` models
`v1_spec.ParsePlatform`, and `selectPlatform` models the platform-filtered
manifest selection of `oras.Copy` with `WithTargetPlatform` (it may fail when
the requested platform is absent). -/
structure CopyOracles where
  newRepo : GoStr → Except GoError Unit
  newStore : Except GoError Unit
  parsePlatform : GoStr → Except GoError Platform
  selectPlatform : Descriptor → Platform → Except GoError Descriptor

/-- Modelled from the spec: `oras.Copy(ctx, source, tag, target, tag, opts)`
copies the artifact tagged `srcTag` at the source to the target under
`dstTag` and returns its descriptor; with a target platform only the matching
platform manifest is copied (selection may fail). -/
def orasCopy (o : CopyOracles) (w : World) (src : RepoCfg) (srcTag : GoStr)
    (dst : RepoCfg) (dstTag : GoStr) (p : Option Platform) :
    Except GoError (Descriptor × World) :=
  match w src.ref srcTag with
  | none => .error ⟨"not found".data⟩
  | some d =>
    match p with
    | none => .ok (d, worldSet w dst.ref dstTag d)
    | some plat =>
      match o.selectPlatform d plat with
      | .error e => .error e
      | .ok d1 => .ok (d1, worldSet w dst.ref dstTag d1)

/-- The loopback/local recognition of `Registry.Push`:
`strings.Contains(sourceURL, "localhost") || strings.Contains(sourceURL, "0.0.0.0")`. -/
def isLocalRef (u : GoStr) : Bool :=
  goContains u ("localhost".data) || goContains u ("0.0.0.0".data)

/-- The method `Registry.Push` of `registry.go`: build the credential store,
connect to the source repository (`sourceURL/name`) choosing plain HTTP
exactly when the source URL contains `"localhost"` or `"0.0.0.0"`, connect to
the target repository (`r.URL/name`) with the registry's configured
`PlainHTTP` flag, optionally parse the architecture into a target platform,
then `oras.Copy` the tag.  Returns the source and target configurations that
were used together with the copied descriptor and the new world. -/
def PushFn (o : CopyOracles) (w : World) (r : Registry)
    (sourceURL name tag : GoStr) (arch : Option GoStr) :
    Except GoError (RepoCfg × RepoCfg × Descriptor × World) :=
  match o.newStore with
  | .error e => .error e
  | .ok _ =>
    match o.newRepo (joinSlash sourceURL name) with
    | .error e => .error e
    | .ok _ =>
      let src : RepoCfg := ⟨joinSlash sourceURL name, isLocalRef sourceURL⟩
      match o.newRepo (joinSlash r.URL name) with
      | .error e => .error e
      | .ok _ =>
        let tgt : RepoCfg := ⟨joinSlash r.URL name, r.PlainHTTP⟩
        match arch with
        | none =>
          match orasCopy o w src tag tgt tag none with
          | .error e => .error e
          | .ok (d, w1) => .ok (src, tgt, d, w1)
        | some a =>
          match o.parsePlatform a with
          | .error e => .error e
          | .ok plat =>
            match orasCopy o w src tag tgt tag (some plat) with
            | .error e => .error e
            | .ok (d, w1) => .ok (src, tgt, d, w1)

/-- The method `Registry.Fetch` of `registry.go`: connect to `r.URL/name`
with the registry's flag, build the credential store, and resolve the tag to
a descriptor (metadata only). -/
def FetchFn (o : CopyOracles) (w : World) (r : Registry) (name tag : GoStr) :
    Except GoError Descriptor :=
  match o.newRepo (joinSlash r.URL name) with
  | .error e => .error e
  | .ok _ =>
    match o.newStore with
    | .error e => .error e
    | .ok _ =>
      match w (joinSlash r.URL name) tag with
      | none => .error ⟨"not found".data⟩
      | some d => .ok d

/-! ## The patch-or-push pipeline of `Program` (Copacetic branch) -/

/-- Modelled from the spec: an image record (`registry.Image` is declared
outside this package).  Identity is the canonical reference (repository path
plus tag); `patch` is the tri-state patch flag (`none` = unset,
`some false` = explicitly excluded, `some true` = explicitly included). -/
structure Image where
  name : GoStr
  tag : GoStr
  patch : Option Bool
deriving DecidableEq

/-- Modelled from the spec: the canonical reference string of an image
(repository path + tag), as produced by `Image.String`. -/
def imgRef (i : Image) : GoStr := i.name ++ ':' :: i.tag

/-- A scan report: OS metadata and a vulnerability findings list, with the
two components kept abstract. -/
structure ScanReport (ω φ : Type) where
  metadataOS : ω
  results : φ
deriving DecidableEq

/-- Oracles and predicates for the pipeline:
`scan` models `trivy.ScanOption.Scan`; `supportedOS` models
`copa.SupportedOS` and `containsOsPkgs` models `trivy.ContainsOsPkgs`
(modelled from the spec as the patcher's supported-OS predicate and the
findings-contain-OS-packages predicate); `fsWrite` models
`json.MarshalIndent` plus `os.WriteFile` at a path (`none` = success);
`importRun` models `registry.ImportOption.Run` (the push stage);
`patchImg` models the external patcher on one image. -/
structure PipelineEnv (ω φ : Type) where
  scan : GoStr → Except GoError (ScanReport ω φ)
  supportedOS : ω → Bool
  containsOsPkgs : φ → Bool
  fsWrite : GoStr → Option GoError
  importRun : List Image → Option GoError
  patchImg : Image → Option GoError

/-- Prescan report path as written inside the classification loop
(`filepath.Join(folder, "prescan-" + ReplaceAll(name:tag.json, "/", "-"))`). -/
def prescanLoopPath (folder : GoStr) (i : Image) : GoStr :=
  goJoin folder (("prescan-".data) ++ sanitize (i.name ++ ':' :: i.tag ++ (".json".data)))

/-- Prescan report path as computed in the artifact-path block
(`ReplaceAll("prescan-name:tag.json", "/", "-")` joined to the reports
folder). -/
def prescanReportPath (folder : GoStr) (i : Image) : GoStr :=
  goJoin folder (sanitize (("prescan-".data) ++ i.name ++ ':' :: i.tag ++ (".json".data)))

/-- Postscan report path (`postscan-name:tag.json`, sanitized, under the
reports folder). -/
def postscanReportPath (folder : GoStr) (i : Image) : GoStr :=
  goJoin folder (sanitize (("postscan-".data) ++ i.name ++ ':' :: i.tag ++ (".json".data)))

/-- Postscan report path as written inside the rescan loop
(`filepath.Join(out, "postscan-" + ReplaceAll(name:tag.json, "/", "-"))`). -/
def postscanLoopPath (folder : GoStr) (i : Image) : GoStr :=
  goJoin folder (("postscan-".data) ++ sanitize (i.name ++ ':' :: i.tag ++ (".json".data)))

/-- Patched-archive path (`name:tag.tar`, sanitized, under the tars
folder). -/
def patchedArchivePath (folder : GoStr) (i : Image) : GoStr :=
  goJoin folder (sanitize (i.name ++ ':' :: i.tag ++ (".tar".data)))

/-- The classification loop of `Program` (the `for _, i := range imgs` loop
in the Copacetic branch): an image whose `Patch` flag is explicitly `false`
goes straight to the push list; otherwise the image is scanned (a scan error
aborts the batch), routed to the patch list exactly when the OS is supported
and the findings contain OS-package vulnerabilities and to the push list
otherwise, and its prescan report is written (a write error aborts the
batch).  The state is (patch list, push list, written prescan paths). -/
def classifyLoop (env : PipelineEnv ω φ) (folder : GoStr) :
    List Image → List Image × List Image × List GoStr →
    Except GoError (List Image × List Image × List GoStr)
  | [], st => .ok st
  | i :: rest, (patchL, pushL, written) =>
    match i.patch with
    | some false => classifyLoop env folder rest (patchL, pushL ++ [i], written)
    | _ =>
      match env.scan (imgRef i) with
      | .error e => .error e
      | .ok r =>
        let st1 :=
          if env.supportedOS r.metadataOS then
            if env.containsOsPkgs r.results then
              (patchL ++ [i], pushL)
            else
              (patchL, pushL ++ [i])
          else
            (patchL, pushL ++ [i])
        match env.fsWrite (prescanLoopPath folder i) with
        | some e => .error e
        | none =>
          classifyLoop env folder rest
            (st1.1, st1.2, written ++ [prescanLoopPath folder i])

/-- Modelled from the spec: `copa.PatchOption.Run` patches each selected
image using its prescan report, producing a patched archive at the image's
output path; on a patch failure the batch aborts unless `IgnoreErrors` is set,
in which case the image is skipped (left unpatched, no archive).  Returns the
list of images actually archived. -/
def patchStage (env : PipelineEnv ω φ) (ignoreErrors : Bool) :
    List Image → Except GoError (List Image)
  | [] => .ok []
  | i :: rest =>
    match env.patchImg i with
    | some e =>
      if ignoreErrors then patchStage env ignoreErrors rest
      else .error e
    | none =>
      match patchStage env ignoreErrors rest with
      | .error e => .error e
      | .ok done => .ok (i :: done)

/-- The rescan loop of `Program` (the closure applied to the reports folder
and the `"postscan-"` marker): it ranges over `imgs` — all candidate images —
scanning each and writing its postscan report; any scanner or write error
aborts the batch.  Returns the postscan paths written, in order. -/
def rescanStage (env : PipelineEnv ω φ) (folder : GoStr) :
    List Image → Except GoError (List GoStr)
  | [] => .ok []
  | i :: rest =>
    match env.scan (imgRef i) with
    | .error e => .error e
    | .ok _ =>
      match env.fsWrite (postscanLoopPath folder i) with
      | some e => .error e
      | none =>
        match rescanStage env folder rest with
        | .error e => .error e
        | .ok ps => .ok (postscanLoopPath folder i :: ps)

/-- Result of one patch-enabled pipeline run over the candidate batch. -/
structure RunResult where
  patchL : List Image
  pushL : List Image
  prescanWritten : List GoStr
  archivedImgs : List Image
  archivesWritten : List GoStr
  postscanWritten : List GoStr
deriving DecidableEq

/-- The Copacetic branch of `Program` after candidate selection: classify all
candidates into the patch and push lists, push the push list
(`ImportOption.Run`), patch the patch list (archiving each patched image at
its archive path), then rescan.  The cosign stage carries no artifact state
and is omitted. -/
def copaPipeline (env : PipelineEnv ω φ) (ignoreErrors : Bool)
    (reportsFolder tarsFolder : GoStr) (imgs : List Image) :
    Except GoError RunResult :=
  match classifyLoop env reportsFolder imgs ([], [], []) with
  | .error e => .error e
  | .ok (patchL, pushL, presc) =>
    match env.importRun pushL with
    | some e => .error e
    | none =>
      match patchStage env ignoreErrors patchL with
      | .error e => .error e
      | .ok archived =>
        match rescanStage env reportsFolder imgs with
        | .error e => .error e
        | .ok posts =>
          .ok ⟨patchL, pushL, presc, archived,
               archived.map (patchedArchivePath tarsFolder), posts⟩

/-- The deferred cleanup block of `Program`: when `Output.Reports.Clean` is
set it removes the prescan and postscan report files, and — the second guard
in the source also tests `Output.Reports.Clean` — the patched archives as
well; the `tarsClean` flag (`Output.Tars.Clean`) is never consulted.
`os.RemoveAll` errors are discarded.  Returns the list of paths removed. -/
def cleanupDeleted (reportsClean tarsClean : Bool)
    (reportPaths postPaths outPaths : List GoStr) : List GoStr :=
  (if reportsClean then reportPaths ++ postPaths else []) ++
  (if reportsClean then outPaths else [])

/-! ## Lemmas about the map model and `Exists` -/

lemma mapLookup_filter_ne (m : List (GoStr × Bool)) (k u : GoStr) (h : u ≠ k) :
    mapLookup (m.filter (fun p => !(decide (p.1 = k)))) u = mapLookup m u := by
  induction m with
  | nil => rfl
  | cons hd tl ih =>
    obtain ⟨k0, v0⟩ := hd
    by_cases hk : k0 = k
    · subst hk
      simp [List.filter_cons, mapLookup, h, ih]
    · by_cases hu : u = k0
      · simp [List.filter_cons, hk, mapLookup, hu]
      · simp [List.filter_cons, hk, mapLookup, hu, ih]

lemma mapLookup_insert (m : List (GoStr × Bool)) (k : GoStr) (v : Bool)
    (u : GoStr) :
    mapLookup (mapInsert m k v) u = if u = k then some v else mapLookup m u := by
  simp only [mapInsert, mapLookup]
  by_cases hu : u = k
  · simp [hu]
  · simp only [hu, if_false]
    exact mapLookup_filter_ne m k u hu

lemma existsFold_lookup (o : ExistOracles) (ref tag : GoStr) :
    ∀ (rs : List Registry) (m : List (GoStr × Bool)) (u : GoStr),
    mapLookup
      (rs.foldl (fun acc r => mapInsert acc r.URL (coalesce (RegistryExistFn o r ref tag))) m) u
      = ((rs.reverse.find? (fun r => decide (r.URL = u))).map
          (fun r => coalesce (RegistryExistFn o r ref tag))).or (mapLookup m u) := by
  intro rs
  induction rs with
  | nil =>
    intro m u
    simp [Option.or]
  | cons a tl ih =>
    intro m u
    simp only [List.foldl_cons, List.reverse_cons, List.find?_append]
    rw [ih]
    rcases h : tl.reverse.find? (fun r => decide (r.URL = u)) with _ | r
    · by_cases hu : a.URL = u
      · simp [h, List.find?_cons, hu, mapLookup_insert, Option.or]
      · have hu2 : ¬ (u = a.URL) := fun hh => hu hh.symm
        simp [h, List.find?_cons, hu, hu2, mapLookup_insert, Option.or]
    · simp [h, Option.or]

lemma existsFold_length (o : ExistOracles) (ref tag : GoStr) :
    ∀ (rs : List Registry) (m : List (GoStr × Bool)),
    (rs.foldl (fun acc r => mapInsert acc r.URL (coalesce (RegistryExistFn o r ref tag))) m).length
      ≤ m.length + rs.length := by
  intro rs
  induction rs with
  | nil => intro m; simp
  | cons a tl ih =>
    intro m
    simp only [List.foldl_cons]
    have h1 := ih (mapInsert m a.URL (coalesce (RegistryExistFn o a ref tag)))
    have h2 : (mapInsert m a.URL (coalesce (RegistryExistFn o a ref tag))).length
        ≤ m.length + 1 := by
      simp only [mapInsert, List.length_cons]
      have := List.length_filter_le (fun p => !(decide (p.1 = a.URL))) m
      omega
    simp only [List.length_cons]
    omega

lemma coalesce_registryExist (o : ExistOracles) (r : Registry) (name tag : GoStr) :
    coalesce (RegistryExistFn o r name tag) = (RegistryExistFn o r name tag).1 := by
  unfold RegistryExistFn ExistFn
  cases hr : o.newRepo (joinSlash r.URL name) with
  | error e => simp [coalesce]
  | ok u =>
    cases hs : o.newStore with
    | error e => simp [coalesce]
    | ok u2 =>
      cases hf : o.fetch (joinSlash r.URL name) tag r.PlainHTTP with
      | error e => simp [coalesce]
      | ok d => simp [coalesce]

lemma find?_of_pairwise_urls (l : List Registry)
    (hd : List.Pairwise (fun a b => a.URL ≠ b.URL) l)
    (r : Registry) (hr : r ∈ l) :
    l.find? (fun x => decide (x.URL = r.URL)) = some r := by
  induction l with
  | nil => cases hr
  | cons a tl ih =>
    rcases List.mem_cons.mp hr with h | h
    · subst h
      simp [List.find?_cons]
    · have ha : a.URL ≠ r.URL := (List.pairwise_cons.mp hd).1 r h
      have hfa : (decide (a.URL = r.URL)) = false := by simp [ha]
      simp only [List.find?_cons, hfa]
      exact ih (List.pairwise_cons.mp hd).2 h

lemma exists_lookup_of_mem (o : ExistOracles) (ref tag : GoStr)
    (rs : List Registry)
    (hdist : List.Pairwise (fun a b => a.URL ≠ b.URL) rs)
    (r : Registry) (hr : r ∈ rs) :
    mapLookup (ExistsFn o ref tag rs) r.URL
      = some (coalesce (RegistryExistFn o r ref tag)) := by
  have hrev : List.Pairwise (fun a b => a.URL ≠ b.URL) rs.reverse := by
    rw [List.pairwise_reverse]
    exact hdist.imp (fun h => Ne.symm h)
  have hfind := find?_of_pairwise_urls rs.reverse hrev r (List.mem_reverse.mpr hr)
  have := existsFold_lookup o ref tag rs [] r.URL
  unfold ExistsFn
  rw [this, hfind]
  simp [Option.or, mapLookup]

/-! ## Claims about `Exist` and `Exists` -/

/-- C4: For every oracle behaviour (hence every context, reference, tag and
transport flag), `Exist` returns a boolean that is true exactly when the
returned error is nil, on every return path; the error itself is the second
component handed to the caller, so the boolean alone does not distinguish
connectivity failures from a true-negative not-found. -/
theorem c4_exist_bool_iff_nil_error (o : ExistOracles) (reference tag : GoStr)
    (plainHTTP : Bool) :
    ((ExistFn o reference tag plainHTTP).1 = true
      ↔ (ExistFn o reference tag plainHTTP).2 = none)
    ∧ (ExistFn o reference tag plainHTTP).1
        = (ExistFn o reference tag plainHTTP).2.isNone := by
  unfold ExistFn
  cases hr : o.newRepo reference with
  | error e => simp
  | ok u =>
    cases hs : o.newStore with
    | error e => simp
    | ok u2 =>
      cases hf : o.fetch reference tag plainHTTP with
      | error e => simp
      | ok d => simp

/-- C10: The map returned by `Exists` is keyed by each registry's `URL`
field: looking up `u` returns exactly the coalesced probe of the last input
registry whose `URL` is `u` (so duplicated URLs collapse into one entry whose
value is the later probe), the key set is exactly the set of input URLs, and
the map has at most as many entries as there are input registries. -/
theorem c10_exists_keyed_by_url (o : ExistOracles) (ref tag : GoStr)
    (rs : List Registry) (u : GoStr) :
    (mapLookup (ExistsFn o ref tag rs) u
      = (rs.reverse.find? (fun r => decide (r.URL = u))).map
          (fun r => coalesce (RegistryExistFn o r ref tag)))
    ∧ ((mapLookup (ExistsFn o ref tag rs) u).isSome ↔ u ∈ rs.map Registry.URL)
    ∧ (ExistsFn o ref tag rs).length ≤ rs.length := by
  have hchar : mapLookup (ExistsFn o ref tag rs) u
      = (rs.reverse.find? (fun r => decide (r.URL = u))).map
          (fun r => coalesce (RegistryExistFn o r ref tag)) := by
    have := existsFold_lookup o ref tag rs [] u
    unfold ExistsFn
    rw [this]
    cases h : rs.reverse.find? (fun r => decide (r.URL = u)) with
    | none => simp [h, Option.or, mapLookup]
    | some r => simp [h, Option.or]
  refine ⟨hchar, ?_, ?_⟩
  · rw [hchar]
    cases h : rs.reverse.find? (fun r => decide (r.URL = u)) with
    | none =>
      simp only [Option.map_none', Option.isSome_none, Bool.false_eq_true,
        false_iff]
      intro hmem
      rcases List.mem_map.mp hmem with ⟨r, hr, hru⟩
      have : ∃ x ∈ rs.reverse, (decide (x.URL = u)) = true := by
        exact ⟨r, List.mem_reverse.mpr hr, by simp [hru]⟩
      have hsome := List.find?_isSome.mpr this
      rw [h] at hsome
      simp at hsome
    | some r =>
      simp only [Option.map_some', Option.isSome_some, true_iff]
      have hr := List.find?_some h
      have hmem := List.mem_of_find?_eq_some h
      exact List.mem_map.mpr ⟨r, List.mem_reverse.mp hmem, by simpa using hr⟩
  · have := existsFold_length o ref tag rs []
    simpa [ExistsFn] using this

/-- C2: With pairwise-distinct registry URLs, a probe error on one registry
is coalesced into a `false` entry rather than propagated: `Exists` still
returns a complete result map, the unreachable registry's entry is `false`,
and every other registry's entry is exactly the boolean its own probe
returned (its true state); the call returns a map, never an error. -/
theorem c2_exists_coalesces_probe_error (o : ExistOracles) (ref tag : GoStr)
    (rs : List Registry) (r0 : Registry)
    (hdist : List.Pairwise (fun a b => a.URL ≠ b.URL) rs)
    (hmem : r0 ∈ rs)
    (hbad : (RegistryExistFn o r0 ref tag).2 ≠ none) :
    mapLookup (ExistsFn o ref tag rs) r0.URL = some false
    ∧ ∀ r ∈ rs,
        mapLookup (ExistsFn o ref tag rs) r.URL
          = some ((RegistryExistFn o r ref tag).1) := by
  constructor
  · rw [exists_lookup_of_mem o ref tag rs hdist r0 hmem]
    rcases hpair : RegistryExistFn o r0 ref tag with ⟨b, oe⟩
    cases oe with
    | none => rw [hpair] at hbad; simp at hbad
    | some e => simp [coalesce]
  · intro r hr
    rw [exists_lookup_of_mem o ref tag rs hdist r hr,
      coalesce_registryExist]

/-- Witness for C2: two registries, the second unreachable (its fetch
fails); the result map holds `false` for the unreachable one and the true
probe result for the other. -/
theorem c2_exists_coalesces_probe_error_witness :
    mapLookup
      (ExistsFn
        ⟨fun _ => .ok (), .ok (),
          fun reference _ _ =>
            if reference = ("a/img".data) then .ok ⟨"sha".data⟩
            else .error ⟨"dial tcp".data⟩⟩
        ("img".data) ("v1".data)
        [⟨"A".data, "a".data, false, false⟩, ⟨"B".data, "b".data, false, true⟩])
      ("b".data) = some false := by
  have h :=
    c2_exists_coalesces_probe_error
      ⟨fun _ => .ok (), .ok (),
        fun reference _ _ =>
          if reference = ("a/img".data) then .ok ⟨"sha".data⟩
          else .error ⟨"dial tcp".data⟩⟩
      ("img".data) ("v1".data)
      [⟨"A".data, "a".data, false, false⟩, ⟨"B".data, "b".data, false, true⟩]
      ⟨"B".data, "b".data, false, true⟩
      (by decide) (by decide) (by decide)
  exact h.1

/-! ## Claims about `Push` and `Fetch` -/

/-- C5: Whenever `Push` reaches its copy step, the source connection uses
plain HTTP exactly when the source URL contains `"localhost"` or `"0.0.0.0"`
(the source's loopback/local recognition), and the destination connection
uses plain HTTP exactly when the registry's configured `PlainHTTP` flag is
set; each choice is an equation in the other side's data only, so the two
selections are independent of one another. -/
theorem c5_push_transport_selection (o : CopyOracles) (w : World)
    (r : Registry) (sourceURL name tag : GoStr) (arch : Option GoStr)
    (src tgt : RepoCfg) (d : Descriptor) (w1 : World)
    (h : PushFn o w r sourceURL name tag arch = .ok (src, tgt, d, w1)) :
    (src.plainHTTP = true ↔ isLocalRef sourceURL = true)
    ∧ tgt.plainHTTP = r.PlainHTTP := by
  unfold PushFn at h
  cases hs : o.newStore with
  | error e => rw [hs] at h; exact absurd h (by simp)
  | ok u =>
    rw [hs] at h
    cases hr1 : o.newRepo (joinSlash sourceURL name) with
    | error e => rw [hr1] at h; simp at h
    | ok u1 =>
      rw [hr1] at h
      cases hr2 : o.newRepo (joinSlash r.URL name) with
      | error e => rw [hr2] at h; simp at h
      | ok u2 =>
        rw [hr2] at h
        dsimp only at h
        cases arch with
        | none =>
          cases hc : orasCopy o w ⟨joinSlash sourceURL name, isLocalRef sourceURL⟩
              tag ⟨joinSlash r.URL name, r.PlainHTTP⟩ tag none with
          | error e => rw [hc] at h; simp at h
          | ok dw =>
            obtain ⟨d0, w0⟩ := dw
            rw [hc] at h
            simp only [Except.ok.injEq, Prod.mk.injEq] at h
            obtain ⟨h1, h2, h3, h4⟩ := h
            subst h1; subst h2
            exact ⟨Iff.rfl, rfl⟩
        | some a =>
          dsimp only at h
          cases hp : o.parsePlatform a with
          | error e => rw [hp] at h; simp at h
          | ok plat =>
            rw [hp] at h
            dsimp only at h
            cases hc : orasCopy o w ⟨joinSlash sourceURL name, isLocalRef sourceURL⟩
                tag ⟨joinSlash r.URL name, r.PlainHTTP⟩ tag (some plat) with
            | error e => rw [hc] at h; simp at h
            | ok dw =>
              obtain ⟨d0, w0⟩ := dw
              rw [hc] at h
              simp only [Except.ok.injEq, Prod.mk.injEq] at h
              obtain ⟨h1, h2, h3, h4⟩ := h
              subst h1; subst h2
              exact ⟨Iff.rfl, rfl⟩

/-- Witness for C5: a concrete successful push from a `localhost` source to a
TLS destination registry exercises the transport-selection theorem. -/
theorem c5_push_transport_selection_witness :
    ((⟨("localhost:5000/app".data), true⟩ : RepoCfg).plainHTTP = true
      ↔ isLocalRef ("localhost:5000".data) = true)
    ∧ (⟨("tgt/app".data), false⟩ : RepoCfg).plainHTTP
        = (⟨"T".data, "tgt".data, false, false⟩ : Registry).PlainHTTP :=
  c5_push_transport_selection
    ⟨fun _ => .ok (), .ok (), fun _ => .ok [], fun d _ => .ok d⟩
    (fun ref1 tag1 =>
      if ref1 = ("localhost:5000/app".data) ∧ tag1 = ("v1".data) then
        some ⟨"sha".data⟩
      else none)
    ⟨"T".data, "tgt".data, false, false⟩
    ("localhost:5000".data) ("app".data) ("v1".data) none
    ⟨("localhost:5000/app".data), true⟩ ⟨("tgt/app".data), false⟩
    ⟨"sha".data⟩
    (worldSet
      (fun ref1 tag1 =>
        if ref1 = ("localhost:5000/app".data) ∧ tag1 = ("v1".data) then
          some ⟨"sha".data⟩
        else none)
      ("tgt/app".data) ("v1".data) ⟨"sha".data⟩)
    rfl

lemma orasCopy_world (o : CopyOracles) (w : World) (src : RepoCfg)
    (t1 : GoStr) (dst : RepoCfg) (t2 : GoStr) (p : Option Platform)
    (d0 : Descriptor) (w0 : World)
    (h : orasCopy o w src t1 dst t2 p = .ok (d0, w0)) :
    w0 = worldSet w dst.ref t2 d0 := by
  unfold orasCopy at h
  cases hw : w src.ref t1 with
  | none => rw [hw] at h; simp at h
  | some dd =>
    rw [hw] at h
    cases p with
    | none =>
      simp only [Except.ok.injEq, Prod.mk.injEq] at h
      obtain ⟨h1, h2⟩ := h
      subst h1; exact h2.symm
    | some plat =>
      dsimp only at h
      cases hsel : o.selectPlatform dd plat with
      | error e => rw [hsel] at h; simp at h
      | ok d1 =>
        rw [hsel] at h
        simp only [Except.ok.injEq, Prod.mk.injEq] at h
        obtain ⟨h1, h2⟩ := h
        subst h1; exact h2.symm

/-- C9: A successful `Push` followed by a `Fetch` of the same name and tag
against the destination registry resolves to exactly the descriptor the push
returned, so the fetched digest equals the pushed (source) descriptor's
digest. -/
theorem c9_push_fetch_round_trip (o : CopyOracles) (w : World) (r : Registry)
    (sourceURL name tag : GoStr) (arch : Option GoStr)
    (src tgt : RepoCfg) (d : Descriptor) (w1 : World)
    (h : PushFn o w r sourceURL name tag arch = .ok (src, tgt, d, w1)) :
    FetchFn o w1 r name tag = .ok d
    ∧ (FetchFn o w1 r name tag).map (fun x => x.digest) = .ok d.digest := by
  unfold PushFn at h
  cases hs : o.newStore with
  | error e => rw [hs] at h; simp at h
  | ok u =>
    rw [hs] at h
    cases hr1 : o.newRepo (joinSlash sourceURL name) with
    | error e => rw [hr1] at h; simp at h
    | ok u1 =>
      rw [hr1] at h
      cases hr2 : o.newRepo (joinSlash r.URL name) with
      | error e => rw [hr2] at h; simp at h
      | ok u2 =>
        rw [hr2] at h
        dsimp only at h
        cases arch with
        | none =>
          cases hc : orasCopy o w ⟨joinSlash sourceURL name, isLocalRef sourceURL⟩
              tag ⟨joinSlash r.URL name, r.PlainHTTP⟩ tag none with
          | error e => rw [hc] at h; simp at h
          | ok dw =>
            obtain ⟨d0, w0⟩ := dw
            rw [hc] at h
            simp only [Except.ok.injEq, Prod.mk.injEq] at h
            obtain ⟨h1, h2, h3, h4⟩ := h
            subst h3; subst h4
            have hw := orasCopy_world _ _ _ _ _ _ _ _ _ hc
            simp [FetchFn, hr2, hs, hw, worldSet, Except.map]
        | some a =>
          dsimp only at h
          cases hp : o.parsePlatform a with
          | error e => rw [hp] at h; simp at h
          | ok plat =>
            rw [hp] at h
            dsimp only at h
            cases hc : orasCopy o w ⟨joinSlash sourceURL name, isLocalRef sourceURL⟩
                tag ⟨joinSlash r.URL name, r.PlainHTTP⟩ tag (some plat) with
            | error e => rw [hc] at h; simp at h
            | ok dw =>
              obtain ⟨d0, w0⟩ := dw
              rw [hc] at h
              simp only [Except.ok.injEq, Prod.mk.injEq] at h
              obtain ⟨h1, h2, h3, h4⟩ := h
              subst h3; subst h4
              have hw := orasCopy_world _ _ _ _ _ _ _ _ _ hc
              simp [FetchFn, hr2, hs, hw, worldSet, Except.map]

/-- Witness for C9: a concrete push of `app:v1` into a destination registry,
then a fetch against it, both evaluated. -/
theorem c9_push_fetch_round_trip_witness :
    FetchFn ⟨fun _ => .ok (), .ok (), fun _ => .ok [], fun d _ => .ok d⟩
      (worldSet
        (fun ref1 tag1 =>
          if ref1 = ("s/app".data) ∧ tag1 = ("v1".data) then some ⟨"sha".data⟩
          else none)
        ("t/app".data) ("v1".data) ⟨"sha".data⟩)
      ⟨"T".data, "t".data, false, false⟩ ("app".data) ("v1".data)
      = .ok ⟨"sha".data⟩ :=
  (c9_push_fetch_round_trip
    ⟨fun _ => .ok (), .ok (), fun _ => .ok [], fun d _ => .ok d⟩
    (fun ref1 tag1 =>
      if ref1 = ("s/app".data) ∧ tag1 = ("v1".data) then some ⟨"sha".data⟩
      else none)
    ⟨"T".data, "t".data, false, false⟩
    ("s".data) ("app".data) ("v1".data) none
    ⟨("s/app".data), false⟩ ⟨("t/app".data), false⟩ ⟨"sha".data⟩
    (worldSet
      (fun ref1 tag1 =>
        if ref1 = ("s/app".data) ∧ tag1 = ("v1".data) then some ⟨"sha".data⟩
        else none)
      ("t/app".data) ("v1".data) ⟨"sha".data⟩)
    rfl).1

/-! ## Characterizing the classification loop -/

/-- The per-image patch-or-push decision as the classification loop computes
it (`true` = push-only): an explicitly excluded image is pushed without
scanning; otherwise the image is pushed unless its scan succeeds with a
supported OS and OS-package findings. -/
def pushDecision (env : PipelineEnv ω φ) (i : Image) : Bool :=
  match i.patch with
  | some false => true
  | _ =>
    match env.scan (imgRef i) with
    | .error _ => true
    | .ok r => !(env.supportedOS r.metadataOS && env.containsOsPkgs r.results)

lemma classifyLoop_ok_char (env : PipelineEnv ω φ) (folder : GoStr) :
    ∀ (imgs : List Image) (patchL pushL : List Image) (written : List GoStr)
      (pL uL : List Image) (w : List GoStr),
    classifyLoop env folder imgs (patchL, pushL, written) = .ok (pL, uL, w) →
    pL = patchL ++ imgs.filter (fun i => !(pushDecision env i))
    ∧ uL = pushL ++ imgs.filter (fun i => pushDecision env i)
    ∧ (∀ i ∈ imgs, i.patch ≠ some false →
        ∃ r, env.scan (imgRef i) = .ok r) := by
  intro imgs
  induction imgs with
  | nil =>
    intro patchL pushL written pL uL w h
    simp only [classifyLoop, Except.ok.injEq, Prod.mk.injEq] at h
    obtain ⟨h1, h2, h3⟩ := h
    simp [h1.symm, h2.symm]
  | cons i rest ih =>
    intro patchL pushL written pL uL w h
    simp only [classifyLoop] at h
    cases hp : i.patch with
    | some b =>
      cases b with
      | false =>
        rw [hp] at h
        dsimp only at h
        obtain ⟨e1, e2, e3⟩ := ih patchL (pushL ++ [i]) written pL uL w h
        refine ⟨?_, ?_, ?_⟩
        · rw [e1]
          have : pushDecision env i = true := by simp [pushDecision, hp]
          simp [List.filter_cons, this]
        · rw [e2]
          have : pushDecision env i = true := by simp [pushDecision, hp]
          simp [List.filter_cons, this]
        · intro j hj hjp
          rcases List.mem_cons.mp hj with hj1 | hj1
          · subst hj1; exact absurd hp hjp
          · exact e3 j hj1 hjp
      | true =>
        rw [hp] at h
        dsimp only at h
        cases hsc : env.scan (imgRef i) with
        | error e => rw [hsc] at h; simp at h
        | ok r =>
          rw [hsc] at h
          dsimp only at h
          cases hfw : env.fsWrite (prescanLoopPath folder i) with
          | some e => rw [hfw] at h; simp at h
          | none =>
            rw [hfw] at h
            dsimp only at h
            by_cases hos : env.supportedOS r.metadataOS = true
            · by_cases hpk : env.containsOsPkgs r.results = true
              · rw [if_pos hos, if_pos hpk] at h
                obtain ⟨e1, e2, e3⟩ :=
                  ih (patchL ++ [i]) pushL (written ++ [prescanLoopPath folder i]) pL uL w h
                have hd : pushDecision env i = false := by
                  simp [pushDecision, hp, hsc, hos, hpk]
                refine ⟨?_, ?_, ?_⟩
                · rw [e1]; simp [List.filter_cons, hd]
                · rw [e2]; simp [List.filter_cons, hd]
                · intro j hj hjp
                  rcases List.mem_cons.mp hj with hj1 | hj1
                  · subst hj1; exact ⟨r, hsc⟩
                  · exact e3 j hj1 hjp
              · rw [if_pos hos, if_neg hpk] at h
                obtain ⟨e1, e2, e3⟩ :=
                  ih patchL (pushL ++ [i]) (written ++ [prescanLoopPath folder i]) pL uL w h
                have hd : pushDecision env i = true := by
                  simp only [Bool.not_eq_true] at hpk
                  simp [pushDecision, hp, hsc, hpk]
                refine ⟨?_, ?_, ?_⟩
                · rw [e1]; simp [List.filter_cons, hd]
                · rw [e2]; simp [List.filter_cons, hd]
                · intro j hj hjp
                  rcases List.mem_cons.mp hj with hj1 | hj1
                  · subst hj1; exact ⟨r, hsc⟩
                  · exact e3 j hj1 hjp
            · rw [if_neg hos] at h
              obtain ⟨e1, e2, e3⟩ :=
                ih patchL (pushL ++ [i]) (written ++ [prescanLoopPath folder i]) pL uL w h
              have hd : pushDecision env i = true := by
                simp only [Bool.not_eq_true] at hos
                simp [pushDecision, hp, hsc, hos]
              refine ⟨?_, ?_, ?_⟩
              · rw [e1]; simp [List.filter_cons, hd]
              · rw [e2]; simp [List.filter_cons, hd]
              · intro j hj hjp
                rcases List.mem_cons.mp hj with hj1 | hj1
                · subst hj1; exact ⟨r, hsc⟩
                · exact e3 j hj1 hjp
    | none =>
      rw [hp] at h
      dsimp only at h
      cases hsc : env.scan (imgRef i) with
      | error e => rw [hsc] at h; simp at h
      | ok r =>
        rw [hsc] at h
        dsimp only at h
        cases hfw : env.fsWrite (prescanLoopPath folder i) with
        | some e => rw [hfw] at h; simp at h
        | none =>
          rw [hfw] at h
          dsimp only at h
          by_cases hos : env.supportedOS r.metadataOS = true
          · by_cases hpk : env.containsOsPkgs r.results = true
            · rw [if_pos hos, if_pos hpk] at h
              obtain ⟨e1, e2, e3⟩ :=
                ih (patchL ++ [i]) pushL (written ++ [prescanLoopPath folder i]) pL uL w h
              have hd : pushDecision env i = false := by
                simp [pushDecision, hp, hsc, hos, hpk]
              refine ⟨?_, ?_, ?_⟩
              · rw [e1]; simp [List.filter_cons, hd]
              · rw [e2]; simp [List.filter_cons, hd]
              · intro j hj hjp
                rcases List.mem_cons.mp hj with hj1 | hj1
                · subst hj1; exact ⟨r, hsc⟩
                · exact e3 j hj1 hjp
            · rw [if_pos hos, if_neg hpk] at h
              obtain ⟨e1, e2, e3⟩ :=
                ih patchL (pushL ++ [i]) (written ++ [prescanLoopPath folder i]) pL uL w h
              have hd : pushDecision env i = true := by
                simp only [Bool.not_eq_true] at hpk
                simp [pushDecision, hp, hsc, hpk]
              refine ⟨?_, ?_, ?_⟩
              · rw [e1]; simp [List.filter_cons, hd]
              · rw [e2]; simp [List.filter_cons, hd]
              · intro j hj hjp
                rcases List.mem_cons.mp hj with hj1 | hj1
                · subst hj1; exact ⟨r, hsc⟩
                · exact e3 j hj1 hjp
          · rw [if_neg hos] at h
            obtain ⟨e1, e2, e3⟩ :=
              ih patchL (pushL ++ [i]) (written ++ [prescanLoopPath folder i]) pL uL w h
            have hd : pushDecision env i = true := by
              simp only [Bool.not_eq_true] at hos
              simp [pushDecision, hp, hsc, hos]
            refine ⟨?_, ?_, ?_⟩
            · rw [e1]; simp [List.filter_cons, hd]
            · rw [e2]; simp [List.filter_cons, hd]
            · intro j hj hjp
              rcases List.mem_cons.mp hj with hj1 | hj1
              · subst hj1; exact ⟨r, hsc⟩
              · exact e3 j hj1 hjp

lemma patchStage_subset (env : PipelineEnv ω φ) (ig : Bool) :
    ∀ (l archived : List Image), patchStage env ig l = .ok archived →
    archived ⊆ l := by
  intro l
  induction l with
  | nil =>
    intro archived h
    simp only [patchStage, Except.ok.injEq] at h
    simp [h.symm]
  | cons i rest ih =>
    intro archived h
    simp only [patchStage] at h
    cases hpi : env.patchImg i with
    | some e =>
      rw [hpi] at h
      dsimp only at h
      by_cases hg : ig = true
      · rw [if_pos hg] at h
        exact (ih archived h).trans (List.subset_cons_self i rest)
      · rw [if_neg hg] at h
        simp at h
    | none =>
      rw [hpi] at h
      dsimp only at h
      cases hrec : patchStage env ig rest with
      | error e => rw [hrec] at h; simp at h
      | ok done =>
        rw [hrec] at h
        simp only [Except.ok.injEq] at h
        rw [h.symm]
        exact List.cons_subset_cons i (ih done hrec)

lemma patchStage_all_of_not_ignore (env : PipelineEnv ω φ) :
    ∀ (l archived : List Image), patchStage env false l = .ok archived →
    archived = l := by
  intro l
  induction l with
  | nil =>
    intro archived h
    simp only [patchStage, Except.ok.injEq] at h
    exact h.symm
  | cons i rest ih =>
    intro archived h
    simp only [patchStage] at h
    cases hpi : env.patchImg i with
    | some e => rw [hpi] at h; simp at h
    | none =>
      rw [hpi] at h
      dsimp only at h
      cases hrec : patchStage env false rest with
      | error e => rw [hrec] at h; simp at h
      | ok done =>
        rw [hrec] at h
        simp only [Except.ok.injEq] at h
        rw [h.symm, ih done hrec]

lemma rescanStage_ok_char (env : PipelineEnv ω φ) (folder : GoStr) :
    ∀ (imgs : List Image) (ps : List GoStr),
    rescanStage env folder imgs = .ok ps →
    ps = imgs.map (postscanLoopPath folder) := by
  intro imgs
  induction imgs with
  | nil =>
    intro ps h
    simp only [rescanStage, Except.ok.injEq] at h
    simp [h.symm]
  | cons i rest ih =>
    intro ps h
    simp only [rescanStage] at h
    cases hsc : env.scan (imgRef i) with
    | error e => rw [hsc] at h; simp at h
    | ok r =>
      rw [hsc] at h
      dsimp only at h
      cases hfw : env.fsWrite (postscanLoopPath folder i) with
      | some e => rw [hfw] at h; simp at h
      | none =>
        rw [hfw] at h
        dsimp only at h
        cases hrec : rescanStage env folder rest with
        | error e => rw [hrec] at h; simp at h
        | ok ps1 =>
          rw [hrec] at h
          simp only [Except.ok.injEq] at h
          rw [h.symm, ih ps1 hrec]
          simp

lemma copaPipeline_ok_char (env : PipelineEnv ω φ) (ig : Bool)
    (rf tf : GoStr) (imgs : List Image) (res : RunResult)
    (h : copaPipeline env ig rf tf imgs = .ok res) :
    res.patchL = imgs.filter (fun i => !(pushDecision env i))
    ∧ res.pushL = imgs.filter (fun i => pushDecision env i)
    ∧ (∀ i ∈ imgs, i.patch ≠ some false → ∃ r, env.scan (imgRef i) = .ok r)
    ∧ res.archivedImgs ⊆ res.patchL
    ∧ (ig = false → res.archivedImgs = res.patchL)
    ∧ res.archivesWritten = res.archivedImgs.map (patchedArchivePath tf)
    ∧ res.postscanWritten = imgs.map (postscanLoopPath rf) := by
  unfold copaPipeline at h
  cases hcl : classifyLoop env rf imgs ([], [], []) with
  | error e => rw [hcl] at h; simp at h
  | ok st =>
    obtain ⟨pL, uL, w⟩ := st
    rw [hcl] at h
    dsimp only at h
    cases hir : env.importRun uL with
    | some e => rw [hir] at h; simp at h
    | none =>
      rw [hir] at h
      dsimp only at h
      cases hps : patchStage env ig pL with
      | error e => rw [hps] at h; simp at h
      | ok archived =>
        rw [hps] at h
        dsimp only at h
        cases hrs : rescanStage env rf imgs with
        | error e => rw [hrs] at h; simp at h
        | ok posts =>
          rw [hrs] at h
          simp only [Except.ok.injEq] at h
          obtain ⟨e1, e2, e3⟩ := classifyLoop_ok_char env rf imgs [] [] [] pL uL w hcl
          simp only [List.nil_append] at e1 e2
          subst h
          refine ⟨e1, e2, e3, ?_, ?_, rfl, rescanStage_ok_char env rf imgs posts hrs⟩
          · exact (patchStage_subset env ig pL archived hps)
          · intro hg
            subst hg
            exact patchStage_all_of_not_ignore env pL archived hps

/-! ## Claims about the patch-or-push pipeline -/

/-- C1: In a successful patch-enabled run, the patch-or-push decision follows
the classification table: an explicitly excluded image is push-only (it is
never patched or archived) regardless of any scan result; an image with
`Patch` unset or included whose scan shows an unsupported OS or no OS-package
findings is push-only and never archived; an image with `Patch` unset or
included, a supported OS and OS-package findings is patch-then-push. -/
theorem c1_decision_table (env : PipelineEnv ω φ) (ig : Bool)
    (rf tf : GoStr) (imgs : List Image) (res : RunResult)
    (h : copaPipeline env ig rf tf imgs = .ok res) :
    ∀ i ∈ imgs,
      (i.patch = some false →
        i ∈ res.pushL ∧ i ∉ res.patchL ∧ i ∉ res.archivedImgs)
      ∧ (i.patch ≠ some false →
          ∃ r, env.scan (imgRef i) = .ok r
            ∧ ((env.supportedOS r.metadataOS = false
                ∨ env.containsOsPkgs r.results = false) →
                i ∈ res.pushL ∧ i ∉ res.patchL ∧ i ∉ res.archivedImgs)
            ∧ (env.supportedOS r.metadataOS = true →
                env.containsOsPkgs r.results = true →
                i ∈ res.patchL ∧ i ∉ res.pushL)) := by
  obtain ⟨e1, e2, e3, e4, _, _, _⟩ := copaPipeline_ok_char env ig rf tf imgs res h
  intro i hi
  have hpushmem : pushDecision env i = true →
      i ∈ res.pushL ∧ i ∉ res.patchL ∧ i ∉ res.archivedImgs := by
    intro hd
    have hnp : i ∉ res.patchL := by
      rw [e1]
      intro hmem
      have := (List.mem_filter.mp hmem).2
      simp [hd] at this
    refine ⟨?_, hnp, ?_⟩
    · rw [e2]; exact List.mem_filter.mpr ⟨hi, hd⟩
    · intro hmem; exact hnp (e4 hmem)
  have hpatchmem : pushDecision env i = false →
      i ∈ res.patchL ∧ i ∉ res.pushL := by
    intro hd
    refine ⟨?_, ?_⟩
    · rw [e1]; exact List.mem_filter.mpr ⟨hi, by simp [hd]⟩
    · rw [e2]
      intro hmem
      have := (List.mem_filter.mp hmem).2
      simp [hd] at this
  constructor
  · intro hp
    exact hpushmem (by simp [pushDecision, hp])
  · intro hp
    obtain ⟨r, hsc⟩ := e3 i hi hp
    refine ⟨r, hsc, ?_, ?_⟩
    · intro hbad
      apply hpushmem
      have hand : (env.supportedOS r.metadataOS && env.containsOsPkgs r.results) = false := by
        rcases hbad with hb | hb <;> simp [hb]
      rcases hpv : i.patch with _ | b
      · simp [pushDecision, hpv, hsc, hand]
      · cases b
        · exact absurd hpv hp
        · simp [pushDecision, hpv, hsc, hand]
    · intro hs ht
      apply hpatchmem
      rcases hpv : i.patch with _ | b
      · simp [pushDecision, hpv, hsc, hs, ht]
      · cases b
        · exact absurd hpv hp
        · simp [pushDecision, hpv, hsc, hs, ht]

/-- Witness for C1: a concrete successful run with an explicitly excluded
image and a patch-needed image; the excluded image lands in the push list
and is neither classified for patching nor archived. -/
theorem c1_decision_table_witness :
    (⟨"e".data, "1".data, some false⟩ : Image) ∈
        (RunResult.pushL ⟨[⟨"y".data, "1".data, none⟩], [⟨"e".data, "1".data, some false⟩],
          [prescanLoopPath ("r".data) ⟨"y".data, "1".data, none⟩],
          [⟨"y".data, "1".data, none⟩],
          [patchedArchivePath ("t".data) ⟨"y".data, "1".data, none⟩],
          [postscanLoopPath ("r".data) ⟨"e".data, "1".data, some false⟩,
           postscanLoopPath ("r".data) ⟨"y".data, "1".data, none⟩]⟩)
    ∧ (⟨"e".data, "1".data, some false⟩ : Image) ∉
        (RunResult.patchL ⟨[⟨"y".data, "1".data, none⟩], [⟨"e".data, "1".data, some false⟩],
          [prescanLoopPath ("r".data) ⟨"y".data, "1".data, none⟩],
          [⟨"y".data, "1".data, none⟩],
          [patchedArchivePath ("t".data) ⟨"y".data, "1".data, none⟩],
          [postscanLoopPath ("r".data) ⟨"e".data, "1".data, some false⟩,
           postscanLoopPath ("r".data) ⟨"y".data, "1".data, none⟩]⟩) :=
  by
    have h :=
      (c1_decision_table
        ⟨fun ref =>
            if ref = imgRef ⟨"y".data, "1".data, none⟩ then .ok ⟨true, true⟩
            else .ok ⟨true, false⟩,
          fun b => b, fun b => b, fun _ => none, fun _ => none, fun _ => none⟩
        false ("r".data) ("t".data)
        [⟨"e".data, "1".data, some false⟩, ⟨"y".data, "1".data, none⟩]
        ⟨[⟨"y".data, "1".data, none⟩], [⟨"e".data, "1".data, some false⟩],
          [prescanLoopPath ("r".data) ⟨"y".data, "1".data, none⟩],
          [⟨"y".data, "1".data, none⟩],
          [patchedArchivePath ("t".data) ⟨"y".data, "1".data, none⟩],
          [postscanLoopPath ("r".data) ⟨"e".data, "1".data, some false⟩,
           postscanLoopPath ("r".data) ⟨"y".data, "1".data, none⟩]⟩
        rfl
        ⟨"e".data, "1".data, some false⟩ (by decide)).1 rfl
    exact ⟨h.1, h.2.1⟩

lemma filter_not_length_add (p : Image → Bool) :
    ∀ (l : List Image),
    (l.filter (fun i => !(p i))).length + (l.filter p).length = l.length := by
  intro l
  induction l with
  | nil => simp
  | cons a tl ih =>
    by_cases ha : p a = true
    · simp [List.filter_cons, ha, List.length_cons]
      omega
    · simp only [Bool.not_eq_true] at ha
      simp [List.filter_cons, ha, List.length_cons]
      omega

/-- C3: In a successful patch-enabled run, every candidate image receives
exactly one of the two decisions: it is in the patch collection exactly when
it is not in the push collection, the two collections together are exactly as
large as the candidate batch, both collections draw only from the batch, and
the patch decision determines the archive artifacts (only images from the
patch collection are archived, and their archive paths are exactly the
archives written). -/
theorem c3_exactly_one_decision (env : PipelineEnv ω φ) (ig : Bool)
    (rf tf : GoStr) (imgs : List Image) (res : RunResult)
    (h : copaPipeline env ig rf tf imgs = .ok res) :
    (∀ i ∈ imgs, (i ∈ res.patchL ↔ i ∉ res.pushL))
    ∧ res.patchL.length + res.pushL.length = imgs.length
    ∧ (∀ i ∈ res.patchL, i ∈ imgs) ∧ (∀ i ∈ res.pushL, i ∈ imgs)
    ∧ res.archivedImgs ⊆ res.patchL
    ∧ res.archivesWritten = res.archivedImgs.map (patchedArchivePath tf) := by
  obtain ⟨e1, e2, _, e4, _, e6, _⟩ := copaPipeline_ok_char env ig rf tf imgs res h
  refine ⟨?_, ?_, ?_, ?_, e4, e6⟩
  · intro i hi
    constructor
    · intro hmem hmem2
      rw [e1] at hmem
      rw [e2] at hmem2
      have h1 := (List.mem_filter.mp hmem).2
      have h2 := (List.mem_filter.mp hmem2).2
      rw [h2] at h1
      simp at h1
    · intro hnmem
      rw [e2] at hnmem
      rw [e1]
      refine List.mem_filter.mpr ⟨hi, ?_⟩
      by_cases hd : pushDecision env i = true
      · exact absurd (List.mem_filter.mpr ⟨hi, hd⟩) hnmem
      · simp only [Bool.not_eq_true] at hd
        simp [hd]
  · rw [e1, e2]
    exact filter_not_length_add (pushDecision env) imgs
  · intro i hi
    rw [e1] at hi
    exact (List.mem_filter.mp hi).1
  · intro i hi
    rw [e2] at hi
    exact (List.mem_filter.mp hi).1

/-- Witness for C3: the concrete two-image run; the batch splits one image
into each collection and the counts add up. -/
theorem c3_exactly_one_decision_witness :
    (RunResult.patchL ⟨[⟨"y".data, "1".data, none⟩], [⟨"e".data, "1".data, some false⟩],
        [prescanLoopPath ("r".data) ⟨"y".data, "1".data, none⟩],
        [⟨"y".data, "1".data, none⟩],
        [patchedArchivePath ("t".data) ⟨"y".data, "1".data, none⟩],
        [postscanLoopPath ("r".data) ⟨"e".data, "1".data, some false⟩,
         postscanLoopPath ("r".data) ⟨"y".data, "1".data, none⟩]⟩).length
      + (RunResult.pushL ⟨[⟨"y".data, "1".data, none⟩], [⟨"e".data, "1".data, some false⟩],
        [prescanLoopPath ("r".data) ⟨"y".data, "1".data, none⟩],
        [⟨"y".data, "1".data, none⟩],
        [patchedArchivePath ("t".data) ⟨"y".data, "1".data, none⟩],
        [postscanLoopPath ("r".data) ⟨"e".data, "1".data, some false⟩,
         postscanLoopPath ("r".data) ⟨"y".data, "1".data, none⟩]⟩).length
      = ([⟨"e".data, "1".data, some false⟩, ⟨"y".data, "1".data, none⟩] : List Image).length :=
  (c3_exactly_one_decision
    ⟨fun ref =>
        if ref = imgRef ⟨"y".data, "1".data, none⟩ then .ok ⟨true, true⟩
        else .ok ⟨true, false⟩,
      fun b => b, fun b => b, fun _ => none, fun _ => none, fun _ => none⟩
    false ("r".data) ("t".data)
    [⟨"e".data, "1".data, some false⟩, ⟨"y".data, "1".data, none⟩]
    ⟨[⟨"y".data, "1".data, none⟩], [⟨"e".data, "1".data, some false⟩],
      [prescanLoopPath ("r".data) ⟨"y".data, "1".data, none⟩],
      [⟨"y".data, "1".data, none⟩],
      [patchedArchivePath ("t".data) ⟨"y".data, "1".data, none⟩],
      [postscanLoopPath ("r".data) ⟨"e".data, "1".data, some false⟩,
       postscanLoopPath ("r".data) ⟨"y".data, "1".data, none⟩]⟩
    rfl).2.1

/-- C7 (amended): In a successful patch-enabled run the rescan stage scans
every candidate image — the patched and the push-only ones alike — and writes
one postscan report per candidate, in batch order; in particular every
patched image is rescanned and its postscan report persisted. -/
theorem c7_rescan_covers_all_candidates (env : PipelineEnv ω φ) (ig : Bool)
    (rf tf : GoStr) (imgs : List Image) (res : RunResult)
    (h : copaPipeline env ig rf tf imgs = .ok res) :
    res.postscanWritten = imgs.map (postscanLoopPath rf)
    ∧ ∀ i ∈ res.patchL, postscanLoopPath rf i ∈ res.postscanWritten := by
  obtain ⟨e1, _, _, _, _, _, e7⟩ := copaPipeline_ok_char env ig rf tf imgs res h
  refine ⟨e7, ?_⟩
  intro i hi
  rw [e7]
  rw [e1] at hi
  exact List.mem_map.mpr ⟨i, (List.mem_filter.mp hi).1, rfl⟩

/-- Counterexample for C7 as claimed: a successful run whose single candidate
is explicitly excluded from patching (decision push-only), yet the rescan
stage scans it and writes its postscan report — contradicting that no
postscan report is produced for push-only images. -/
theorem c7_rescan_counterexample :
    copaPipeline
      (⟨fun _ => .ok ⟨true, true⟩, fun b => b, fun b => b,
        fun _ => none, fun _ => none, fun _ => none⟩ : PipelineEnv Bool Bool)
      false ("r".data) ("t".data)
      [⟨"e".data, "1".data, some false⟩]
      = .ok ⟨[], [⟨"e".data, "1".data, some false⟩], [], [], [],
          [postscanLoopPath ("r".data) ⟨"e".data, "1".data, some false⟩]⟩
    ∧ (⟨"e".data, "1".data, some false⟩ : Image) ∈
        ([⟨"e".data, "1".data, some false⟩] : List Image)
    ∧ postscanLoopPath ("r".data) ⟨"e".data, "1".data, some false⟩ ∈
        [postscanLoopPath ("r".data) ⟨"e".data, "1".data, some false⟩] :=
  ⟨rfl, by decide, by simp⟩

/-- Witness for C7 (amended): the excluded-image run evaluated concretely;
the one candidate receives a postscan report. -/
theorem c7_rescan_covers_all_candidates_witness :
    RunResult.postscanWritten
        ⟨[], [⟨"e".data, "1".data, some false⟩], [], [], [],
          [postscanLoopPath ("r".data) ⟨"e".data, "1".data, some false⟩]⟩
      = ([⟨"e".data, "1".data, some false⟩] : List Image).map
          (postscanLoopPath ("r".data)) :=
  (c7_rescan_covers_all_candidates
    (⟨fun _ => .ok ⟨true, true⟩, fun b => b, fun b => b,
      fun _ => none, fun _ => none, fun _ => none⟩ : PipelineEnv Bool Bool)
    false ("r".data) ("t".data)
    [⟨"e".data, "1".data, some false⟩]
    ⟨[], [⟨"e".data, "1".data, some false⟩], [], [], [],
      [postscanLoopPath ("r".data) ⟨"e".data, "1".data, some false⟩]⟩
    rfl).1

/-! ## Claim about the cleanup block -/

/-- C6 evaluation: the cleanup block's archive deletion is governed by the
reports-clean flag, not the tars-clean flag.  With `Reports.Clean = false`
and `Tars.Clean = true` nothing is deleted — the patched archive survives —
while with `Reports.Clean = true` and `Tars.Clean = false` the archive is
deleted along with the reports. -/
theorem c6_cleanup_archives_follow_reports_flag :
    cleanupDeleted false true [] [] [("a.tar".data)] = []
    ∧ cleanupDeleted true false [("p.json".data)] [("q.json".data)]
        [("a.tar".data)]
      = [("p.json".data), ("q.json".data), ("a.tar".data)] := by
  constructor <;> rfl

/-! ## Claim about artifact-path derivation -/

lemma sanitize_append (a b : GoStr) :
    sanitize (a ++ b) = sanitize a ++ sanitize b := by
  simp [sanitize]

lemma sanitize_no_slash (l : GoStr) (h : '/' ∉ l) : sanitize l = l := by
  induction l with
  | nil => rfl
  | cons c tl ih =>
    have hc : c ≠ '/' := fun hh => h (hh ▸ List.mem_cons_self c tl)
    have htl : '/' ∉ tl := fun hh => h (List.mem_cons_of_mem c hh)
    have htl2 := ih htl
    simp only [sanitize, List.map_cons, if_neg hc]
    simp only [sanitize] at htl2
    rw [htl2]

/-- The prescan artifact file name exactly as the spec words it:
`prescan-<name>:<tag>.json` with path separators in the name replaced. -/
def specPrescanName (name tag : GoStr) : GoStr :=
  ("prescan-".data) ++ sanitize name ++ ':' :: tag ++ (".json".data)

/-- The postscan artifact file name exactly as the spec words it:
`postscan-<name>:<tag>.json` with path separators in the name replaced. -/
def specPostscanName (name tag : GoStr) : GoStr :=
  ("postscan-".data) ++ sanitize name ++ ':' :: tag ++ (".json".data)

/-- The patched-archive file name exactly as the spec words it:
`<name>:<tag>.tar` with path separators in the name replaced. -/
def specArchiveName (name tag : GoStr) : GoStr :=
  sanitize name ++ ':' :: tag ++ (".tar".data)

/-- C8: For every image whose tag contains no path separator (true of all
container tags), the derived artifact paths are exactly the spec's scheme:
`prescan-<name>:<tag>.json` and `postscan-<name>:<tag>.json` under the
reports folder and `<name>:<tag>.tar` under the tars folder, with every
`'/'` in the name replaced by `'-'`. -/
theorem c8_artifact_path_scheme (rf tf : GoStr) (i : Image)
    (htag : '/' ∉ i.tag) :
    prescanReportPath rf i = goJoin rf (specPrescanName i.name i.tag)
    ∧ postscanReportPath rf i = goJoin rf (specPostscanName i.name i.tag)
    ∧ patchedArchivePath tf i = goJoin tf (specArchiveName i.name i.tag)
    ∧ prescanLoopPath rf i = goJoin rf (specPrescanName i.name i.tag)
    ∧ postscanLoopPath rf i = goJoin rf (specPostscanName i.name i.tag) := by
  have hpre : sanitize ("prescan-".data) = ("prescan-".data) := by
    apply sanitize_no_slash; decide
  have hpost : sanitize ("postscan-".data) = ("postscan-".data) := by
    apply sanitize_no_slash; decide
  have hjson : sanitize (".json".data) = (".json".data) := by
    apply sanitize_no_slash; decide
  have htar : sanitize (".tar".data) = (".tar".data) := by
    apply sanitize_no_slash; decide
  have htg : sanitize i.tag = i.tag := sanitize_no_slash i.tag htag
  have hcolon : ∀ (l : GoStr), sanitize (':' :: l) = ':' :: sanitize l := by
    intro l; simp [sanitize]
  refine ⟨?_, ?_, ?_, ?_, ?_⟩
  · unfold prescanReportPath specPrescanName
    simp only [sanitize_append, hcolon, hpre, htg, hjson]
  · unfold postscanReportPath specPostscanName
    simp only [sanitize_append, hcolon, hpost, htg, hjson]
  · unfold patchedArchivePath specArchiveName
    simp only [sanitize_append, hcolon, htg, htar]
  · unfold prescanLoopPath specPrescanName
    simp only [sanitize_append, hcolon, htg, hjson]
    simp [List.append_assoc, List.cons_append]
  · unfold postscanLoopPath specPostscanName
    simp only [sanitize_append, hcolon, htg, hjson]
    simp [List.append_assoc, List.cons_append]

/-- Witness for C8: an image named `lib/app` with tag `1.0`; the slash in
the name is replaced by a dash in all three artifact paths. -/
theorem c8_artifact_path_scheme_witness :
    prescanReportPath ("reports".data) ⟨"lib/app".data, "1.0".data, none⟩
      = goJoin ("reports".data)
          (specPrescanName ("lib/app".data) ("1.0".data))
    ∧ prescanReportPath ("reports".data) ⟨"lib/app".data, "1.0".data, none⟩
      = ("reports/prescan-lib-app:1.0.json".data) :=
  ⟨(c8_artifact_path_scheme ("reports".data) ("tars".data)
      ⟨"lib/app".data, "1.0".data, none⟩ (by decide)).1,
    by decide⟩
